import Mathlib

/-!
Verification of the annotation-merging core of `spacy_pythainlp`
(`spacy_pythainlp/core.py`).  The Python functions are shallowly embedded
as executable Lean definitions:

* the sentence-boundary alignment of `PyThaiNLP._sent` (marker insertion,
  post-processing of the retokenized stream, and the alignment walk that
  writes `is_sent_start` flags);
* the BIO-tag span reconstruction of `PyThaiNLP._ner`;
* the field-count guard of `PyThaiNLP._dep`;
* the stage gating and configuration mutation of `PyThaiNLP.__call__`.

Mutable spaCy token flags are modelled as a `List (Option Bool)` (spaCy's
`is_sent_start` is three-valued: `None`/`True`/`False`); Python's negative
list indexing is modelled explicitly in `pySet`.
-/

/-- The sentinel marker from `core.py`: `SENTENCE_SPLIT_MARKER = "SPLIT"`. -/
def SENTENCE_SPLIT_MARKER : String := "SPLIT"

/-- The marker's characters, used by the character-level scanners below. -/
def markerChars : List Char := ['S', 'P', 'L', 'I', 'T']

/-- Does the character list begin with the marker?  (Python
`word.startswith(SENTENCE_SPLIT_MARKER)`.) -/
def beginsWithMarker : List Char → Bool
  | 'S' :: 'P' :: 'L' :: 'I' :: 'T' :: _ => true
  | _ => false

/-- Does the marker occur somewhere in the character list?  (Python
`SENTENCE_SPLIT_MARKER in word`.) -/
def containsMarkerChars : List Char → Bool
  | [] => false
  | c :: cs => beginsWithMarker (c :: cs) || containsMarkerChars cs

/-- Does the character list end with the marker?  (Python
`word.endswith(SENTENCE_SPLIT_MARKER)`.)  True exactly when some suffix
of the list is the marker itself. -/
def endsWithMarkerChars : List Char → Bool
  | [] => false
  | c :: cs => decide ((c :: cs) = markerChars) || endsWithMarkerChars cs

/-- Remove every (leftmost-first, non-overlapping) occurrence of the marker,
as Python's `word.replace(SENTENCE_SPLIT_MARKER, '')` does. -/
def removeMarkerChars : List Char → List Char
  | 'S' :: 'P' :: 'L' :: 'I' :: 'T' :: rest => removeMarkerChars rest
  | c :: cs => c :: removeMarkerChars cs
  | [] => []

/-- String-level wrapper of `removeMarkerChars`. -/
def removeMarker (w : String) : String := ⟨removeMarkerChars w.data⟩

/-- Post-processing of one retokenized element, from the first loop of
`PyThaiNLP._sent`: an element containing the marker as a prefix becomes the
marker followed by the element with the marker removed; an element containing
it as a (proper) suffix becomes the remainder followed by the marker; other
elements pass through unchanged. -/
def processWord (w : String) : List String :=
  if containsMarkerChars w.data then
    if beginsWithMarker w.data then
      [SENTENCE_SPLIT_MARKER, removeMarker w]
    else if endsWithMarkerChars w.data then
      [removeMarker w, SENTENCE_SPLIT_MARKER]
    else
      [w]
  else
    [w]

/-- The `new_tokens` list of `PyThaiNLP._sent`: each retokenized element is
replaced, in order, by its post-processed element(s). -/
def newTokens (tokenized : List String) : List String :=
  tokenized.flatMap processWord

/-- The alignment walk of `PyThaiNLP._sent` over the processed stream,
returning the list of `is_sent_start` write events `(index, value)` in
order.  `i` is the stream position, `skip` the number of consumed markers,
`seenB` the pending-boundary flag.  The document index written is
`i - skip` (an integer, as in Python); the walk stops the first time
`i - skip` equals `docLen - 1`. -/
def sentWalk (docLen : Nat) : List String → Nat → Nat → Bool → List (Int × Bool)
  | [], _, _, _ => []
  | w :: rest, i, skip, seenB =>
    if (i : Int) - (skip : Int) = (docLen : Int) - 1 then
      []
    else if i = 0 then
      ((i : Int) - (skip : Int), true) :: sentWalk docLen rest (i + 1) skip seenB
    else if seenB then
      ((i : Int) - (skip : Int), true) :: sentWalk docLen rest (i + 1) skip false
    else if containsMarkerChars w.data then
      sentWalk docLen rest (i + 1) (skip + 1) true
    else
      ((i : Int) - (skip : Int), false) :: sentWalk docLen rest (i + 1) skip seenB

/-- Python list assignment `xs[idx] = some b` with Python indexing semantics:
a negative index counts from the end.  An index out of range raises
`IndexError` in Python; that case is modelled as a no-op here and is proved
unreachable for the alignment walk (`sent_walk_writes_in_range`). -/
def pySet (xs : List (Option Bool)) (idx : Int) (b : Bool) : List (Option Bool) :=
  let j : Int := if idx < 0 then idx + (xs.length : Int) else idx
  if 0 ≤ j ∧ j < (xs.length : Int) then xs.set j.toNat (some b) else xs

/-- The net effect of `PyThaiNLP._sent` on the `is_sent_start` flags of a
document of `docLen` tokens, given the stream produced by the tokenizer on
the marker-joined sentence text: post-process the stream, then apply the
walk's writes to an initially unset (`none`) flag list. -/
def sentAlign (docLen : Nat) (tokenized : List String) : List (Option Bool) :=
  (sentWalk docLen (newTokens tokenized) 0 0 false).foldl
    (fun xs e => pySet xs e.1 e.2) (List.replicate docLen none)

/-! ## BIO span reconstruction (`PyThaiNLP._ner`) -/

/-- One entry of the Python `entity_spans` list `[start, end, label]`:
`end` is `None` while the span is still open. -/
abbrev NSpan := Nat × Option Nat × String

/-- The loop state of `PyThaiNLP._ner`'s merging pass: the accumulated
`entity_spans`, the cumulative character offset `char_offset`, and
`current_entity_label` (where `""` is Python's falsy "no open label"). -/
structure NerState where
  spans : List NSpan
  c : Nat
  label : String
deriving DecidableEq, Repr

/-- Python `entity_spans[-1][1] = e`: set the end of the most recently
appended span.  (A no-op on the empty list; in the code that case would be
an `IndexError`, and it is unreachable from the initial state because a
label is only open while a span is open.) -/
def setLastEnd : List NSpan → Nat → List NSpan
  | [], _ => []
  | [(s, _, lab)], e => [(s, some e, lab)]
  | sp :: rest, e => sp :: setLastEnd rest e

/-- Python `tag.startswith(NER_TAG_BEGIN)` with `NER_TAG_BEGIN = "B-"`. -/
def beginsWithB : List Char → Bool
  | 'B' :: '-' :: _ => true
  | _ => false

/-- Python `tag.replace(NER_TAG_BEGIN, "")`: remove every occurrence of
`"B-"`, leftmost first. -/
def removeBChars : List Char → List Char
  | 'B' :: '-' :: rest => removeBChars rest
  | c :: cs => c :: removeBChars cs
  | [] => []

/-- String-level wrapper of `removeBChars`. -/
def stripB (tag : String) : String := ⟨removeBChars tag.data⟩

/-- One iteration of the merging loop of `PyThaiNLP._ner`, for token text
`w` with tag `tag`; `isLast` is Python's `i + 1 == len(ner_tags)`.  The
branches appear in the order of the Python `if`/`elif` chain. -/
def nerStep (isLast : Bool) (w tag : String) (st : NerState) : NerState :=
  let n := w.length
  if isLast ∧ st.label ≠ "" then
    { st with spans := setLastEnd st.spans (st.c + n), c := st.c + n }
  else if isLast ∧ beginsWithB tag.data then
    { st with spans := st.spans ++ [(st.c, some (st.c + n), stripB tag)], c := st.c + n }
  else if beginsWithB tag.data ∧ st.label = "" then
    { spans := st.spans ++ [(st.c, none, stripB tag)], c := st.c + n, label := stripB tag }
  else if beginsWithB tag.data ∧ st.label ≠ "" then
    { spans := setLastEnd st.spans st.c ++ [(st.c, none, stripB tag)], c := st.c + n,
      label := stripB tag }
  else if tag = "O" ∧ st.label ≠ "" then
    { spans := setLastEnd st.spans st.c, c := st.c + n, label := "" }
  else
    { st with c := st.c + n }

/-- The merging loop: every token is processed with `isLast = false` except
the final one. -/
def nerLoop : NerState → List (String × String) → NerState
  | st, [] => st
  | st, [(w, t)] => nerStep true w t st
  | st, (w, t) :: p :: rest => nerLoop (nerStep false w t st) (p :: rest)

/-- The initial state: no spans, offset 0, no open label. -/
def initNer : NerState := ⟨[], 0, ""⟩

/-- The loop state after processing `toks` as non-final tokens (used to
speak about the state in which the last token is reached). -/
def nerBody (toks : List (String × String)) : NerState :=
  toks.foldl (fun st p => nerStep false p.1 p.2 st) initNer

/-- The `entity_spans` list produced by `PyThaiNLP._ner` for a BIO-tagged
token sequence. -/
def nerSpans (toks : List (String × String)) : List NSpan :=
  (nerLoop initNer toks).spans

/-- Total character length of the tagged sequence (the final value of
`char_offset`). -/
def totalLen (toks : List (String × String)) : Nat :=
  (toks.map (fun p => p.1.length)).sum

/-- Well-formed chain of closed spans starting no earlier than `lb` and
ending no later than `total`: every span has a set end, `start < end`,
consecutive spans satisfy `end ≤ next start`. -/
def chainFrom (lb total : Nat) : List NSpan → Prop
  | [] => True
  | (s, e, _) :: rest =>
      lb ≤ s ∧ ∃ e', e = some e' ∧ s < e' ∧ e' ≤ total ∧ chainFrom e' total rest

/-- Loop invariant of the merging pass: either no label is open and the
spans form a closed chain bounded by the current offset, or a label is open
and the spans are a closed chain followed by one open span started strictly
before the current offset. -/
def nerInv (st : NerState) : Prop :=
  (st.label = "" ∧ chainFrom 0 st.c st.spans) ∨
    (st.label ≠ "" ∧ ∃ l s lab, st.spans = l ++ [(s, none, lab)] ∧ chainFrom 0 s l ∧ s < st.c)

/-! ## Dependency-parse record handling (`PyThaiNLP._dep`) -/

/-- Decimal digit accumulation for `pyInt`. -/
def digitsVal : List Char → Nat → Option Nat
  | [], acc => some acc
  | c :: cs, acc =>
      if '0' ≤ c ∧ c ≤ '9' then digitsVal cs (acc * 10 + (c.toNat - '0'.toNat))
      else none

/-- Model of Python's `int(s)` on plain decimal strings (an optional sign
followed by digits); `none` models the `ValueError` raised on any other
string.  Python's extra leniencies (surrounding whitespace, underscores)
are not needed for the records considered here. -/
def pyInt (s : String) : Option Int :=
  match s.data with
  | [] => none
  | '-' :: [] => none
  | '-' :: c :: cs => (digitsVal (c :: cs) 0).map (fun n => -(n : Int))
  | cs => (digitsVal cs 0).map (fun n => (n : Int))

/-- The error message raised by `PyThaiNLP._dep` for a short record. -/
def depMsg (n : Nat) : String :=
  "Expected at least 10 fields in dependency parsing output, got " ++ toString n

/-- The per-token data `PyThaiNLP._dep` extracts from one parse record. -/
structure DepTok where
  word : String
  pos : String
  head : Int
  dep : String
  space : Bool
deriving DecidableEq, Repr

/-- Processing of one record of the external parser's output by
`PyThaiNLP._dep`: raise for fewer than 10 fields, otherwise destructure
`fields[:10]` as `idx, word, _, postag, _, _, head, dep, _, space`, with
`int(head)` (whose `ValueError` on a non-numeric head is the second error
case) and `space == '_'`. -/
def depExtract (fields : List String) : Except String DepTok :=
  if fields.length < 10 then
    Except.error (depMsg fields.length)
  else
    match pyInt ((fields.take 10).getD 6 "") with
    | none =>
        Except.error ("invalid literal for int() with base 10: " ++ (fields.take 10).getD 6 "")
    | some h =>
        Except.ok ⟨(fields.take 10).getD 1 "", (fields.take 10).getD 3 "", h,
          (fields.take 10).getD 7 "", decide ((fields.take 10).getD 9 "" = "_")⟩

/-- Did record extraction succeed? -/
def depIsOk : Except String DepTok → Bool
  | Except.ok _ => true
  | Except.error _ => false

/-- The 11-field record from the repository's test suite
(`test_dependency_parsing_with_11_fields`). -/
def fields11 : List String :=
  ["1", "ฉัน", "ฉัน", "PRON", "PRON", "_", "1", "nsubj", "_", "_", "SpaceAfter=No"]

/-- The 9-field record from the repository's test suite
(`test_dependency_parsing_with_insufficient_fields`). -/
def fields9 : List String :=
  ["1", "ฉัน", "ฉัน", "PRON", "PRON", "_", "2", "nsubj", "_"]

/-- Substring occurrence: `pat` occurs contiguously inside `s`. -/
def strInfix (pat s : String) : Prop :=
  ∃ l r, s.data = l ++ pat.data ++ r

/-! ## Pipeline gating (`PyThaiNLP.__call__`) -/

/-- The processing stages `__call__` can run on a document. -/
inductive Stage
  | dep
  | tokenizeStage
  | sentStage
  | posStage
  | nerStage
deriving DecidableEq, Repr

/-- The configuration fields of the component that `__call__` reads or
writes (`self.dependency_parsing`, `self.on_tokenize`, `self.on_sent`,
`self.on_pos`, `self.on_ner`) together with the remaining configuration
surface, carried to express that it is untouched. -/
structure PipeConfig where
  dependency_parsing : Bool
  on_tokenize : Bool
  on_sent : Bool
  on_pos : Bool
  on_ner : Bool
  pos_engine : String
  sent_engine : String
  ner_engine : String
  tokenize_engine : String
  pos_corpus : String
  dependency_parsing_engine : String
  dependency_parsing_model : Option String
  word_vector : Bool
  word_vector_model : String
deriving DecidableEq, Repr

/-- Model of `PyThaiNLP.__call__`: if dependency parsing is enabled, run `_dep` and
set `self.on_tokenize = False` and `self.on_sent = False` (a mutation of the
component object itself); then run the remaining stages according to the
(possibly just mutated) flags.  Returns the stages executed, in order, and
the component state after the call. -/
def callStages (cfg : PipeConfig) : List Stage × PipeConfig :=
  let step1 : List Stage × PipeConfig :=
    if cfg.dependency_parsing then
      ([Stage.dep], { cfg with on_tokenize := false, on_sent := false })
    else
      ([], cfg)
  let cfg' := step1.2
  (step1.1 ++ (if cfg'.on_tokenize then [Stage.tokenizeStage] else [])
      ++ (if cfg'.on_sent then [Stage.sentStage] else [])
      ++ (if cfg'.on_pos then [Stage.posStage] else [])
      ++ (if cfg'.on_ner then [Stage.nerStage] else []),
    cfg')

/-- A configuration with dependency parsing, tokenization and sentence
segmentation all enabled (the factory's engine defaults). -/
def exCfg : PipeConfig :=
  { dependency_parsing := true, on_tokenize := true, on_sent := true, on_pos := false,
    on_ner := false, pos_engine := "perceptron", sent_engine := "crfcut",
    ner_engine := "thainer", tokenize_engine := "newmm", pos_corpus := "orchid_ud",
    dependency_parsing_engine := "esupar", dependency_parsing_model := none,
    word_vector := true, word_vector_model := "thai2fit_wv" }

/-- The retokenized stream hypothesised in the spec's Scenario 4: the
document tokens with the marker standing alone between the two sentences. -/
def c1Stream : List String :=
  ["ผม", "กิน", "ข้าว", SENTENCE_SPLIT_MARKER, "แล้ว", "นอน"]

/-! ## Theorems -/

/-- C1 (counterexample): on Scenario 4's document and retokenized stream the
claim fails — token 4 (`นอน`) does not end with `is_sent_start = false`; the
walk breaks before reaching it because the post-processing step turns the
standalone marker into the two elements `["SPLIT", ""]`, and the empty
string consumes one stream position. -/
theorem sent_scenario4_token4_not_false :
    ¬ (sentAlign 5 c1Stream).getD 4 none = some false := by decide

/-- C1 (amended): on Scenario 4's document and retokenized stream, `_sent`
sets tokens 0 and 3 to `True` and tokens 1 and 2 to `False`, but leaves
token 4 unset (`None`): the loop stops once the mapped index reaches
`len(doc) - 1` without ever writing the last token. -/
theorem sent_scenario4_alignment :
    sentAlign 5 c1Stream =
      [some true, some false, some false, some true, none] := by decide

/-- C3: the sentinel marker is the plain English word `"SPLIT"`, not a
reserved delimiter, and it collides with legitimate text: every character of
the marker is a printable ASCII capital letter, the marker occurs inside the
legitimate token `"SPLITTER"`, and on a document whose retokenized stream
contains that token the alignment walk misreads it as a sentence boundary —
token 1 is wrongly marked sentence-initial and token 3 is left unset. -/
theorem marker_is_plain_word_and_collides :
    SENTENCE_SPLIT_MARKER = "SPLIT"
      ∧ (∀ c ∈ SENTENCE_SPLIT_MARKER.data, 'A' ≤ c ∧ c ≤ 'Z')
      ∧ containsMarkerChars (String.data "SPLITTER") = true
      ∧ sentAlign 4 ["a", "SPLITTER", "b", "c"] =
          [some true, some true, some false, none] := by decide

/-- C9 (counterexample): with dependency parsing enabled, `__call__` does
permanently alter the component's configured tokenize and sentence-
segmentation settings — after one call, `self.on_tokenize` and
`self.on_sent` no longer hold their configured values. -/
theorem call_mutates_config :
    ¬ ((callStages exCfg).2.on_tokenize = exCfg.on_tokenize
        ∧ (callStages exCfg).2.on_sent = exCfg.on_sent) := by decide

/-- C9 (amended): when dependency parsing is enabled, the call runs `_dep`
first and skips tokenization and sentence segmentation, but it does so by
permanently setting the component's `on_tokenize` and `on_sent` fields to
`False`; every other configuration field is unchanged. -/
theorem call_dep_precedence (cfg : PipeConfig) (h : cfg.dependency_parsing = true) :
    callStages cfg =
      (Stage.dep :: ((if cfg.on_pos then [Stage.posStage] else [])
          ++ (if cfg.on_ner then [Stage.nerStage] else [])),
        { cfg with on_tokenize := false, on_sent := false }) := by
  simp [callStages, h]

/-- Witness for `call_dep_precedence` at `exCfg` (whose hypothesis holds by
computation): the call reduces to the dependency stage alone and flips the
two flags. -/
theorem call_dep_precedence_witness :
    callStages exCfg = ([Stage.dep], { exCfg with on_tokenize := false, on_sent := false }) := by
  rw [call_dep_precedence exCfg (by decide)]; decide

/-- C10: an element of the retokenized stream that is exactly the marker is
post-processed into the marker followed by an empty string, and the walk
treats that empty string as a real document token: on the stream
`["a", MARKER, "b"]` over a 3-token document, the empty element receives the
pending sentence-start (the write at document index 1), the mapping of the
later token `"b"` is shifted to index 2 = `len(doc) - 1`, and the walk
therefore stops before writing it. -/
theorem marker_element_splits_to_empty_string :
    processWord SENTENCE_SPLIT_MARKER = [SENTENCE_SPLIT_MARKER, ""]
      ∧ newTokens ["a", SENTENCE_SPLIT_MARKER, "b"] = ["a", SENTENCE_SPLIT_MARKER, "", "b"]
      ∧ sentWalk 3 ["a", SENTENCE_SPLIT_MARKER, "", "b"] 0 0 false = [(0, true), (1, true)]
      ∧ sentAlign 3 ["a", SENTENCE_SPLIT_MARKER, "b"] = [some true, some true, none] := by
  decide

/-- C8: a single-token BIO input whose tag starts with `B-` yields exactly
one span covering the whole token, labelled with the tag minus its `B-`
markers. -/
theorem ner_single_token_begin (w tag : String) (h : beginsWithB tag.data = true) :
    nerSpans [(w, tag)] = [(0, some w.length, stripB tag)] := by
  simp [nerSpans, nerLoop, nerStep, initNer, h]

/-- Witness for `ner_single_token_begin`: the spec's Scenario 2,
`[("กรุงเทพ", "B-LOCATION")]`, produces exactly `(0, 7, "LOCATION")`. -/
theorem ner_single_token_begin_witness :
    nerSpans [("กรุงเทพ", "B-LOCATION")] = [(0, some 7, "LOCATION")] := by
  rw [ner_single_token_begin "กรุงเทพ" "B-LOCATION" (by decide)]; decide

/-- The marker beginning a character list occurs in it. -/
theorem contains_of_beginsWithMarker (l : List Char) (h : beginsWithMarker l = true) :
    containsMarkerChars l = true := by
  cases l with
  | nil => simp [beginsWithMarker] at h
  | cons c cs => simp [containsMarkerChars, h]

/-- The marker ending a character list occurs in it. -/
theorem contains_of_endsWithMarker (l : List Char) (h : endsWithMarkerChars l = true) :
    containsMarkerChars l = true := by
  induction l with
  | nil => simp [endsWithMarkerChars] at h
  | cons c cs ih =>
    rw [endsWithMarkerChars, Bool.or_eq_true] at h
    rw [containsMarkerChars, Bool.or_eq_true]
    rcases h with h | h
    · left
      rw [of_decide_eq_true h]
      decide
    · right
      exact ih h

/-- Case description of `processWord`, with the redundant containment test
removed: prefix and suffix occurrences are split out, everything else
passes through. -/
theorem processWord_eq (w : String) :
    processWord w =
      if beginsWithMarker w.data then [SENTENCE_SPLIT_MARKER, removeMarker w]
      else if endsWithMarkerChars w.data then [removeMarker w, SENTENCE_SPLIT_MARKER]
      else [w] := by
  by_cases hc : containsMarkerChars w.data = true
  · simp [processWord, hc]
  · have hb : beginsWithMarker w.data = false := by
      cases hbb : beginsWithMarker w.data
      · rfl
      · exact absurd (contains_of_beginsWithMarker _ hbb) hc
    have hsuf : endsWithMarkerChars w.data = false := by
      cases hee : endsWithMarkerChars w.data
      · rfl
      · exact absurd (contains_of_endsWithMarker _ hee) hc
    simp [processWord, hc, hb, hsuf]

/-- C7: the post-processed stream replaces, element by element and in text
order, every element with the marker as a prefix by the marker and the
element's remaining text (the text with the marker occurrences removed),
every element with the marker as a suffix by the remaining text and the
marker, and passes every other element (marker mid-token or absent)
through unchanged. -/
theorem sent_marker_postprocessing (stream : List String) :
    newTokens stream =
      stream.flatMap (fun w =>
        if beginsWithMarker w.data then [SENTENCE_SPLIT_MARKER, removeMarker w]
        else if endsWithMarkerChars w.data then [removeMarker w, SENTENCE_SPLIT_MARKER]
        else [w]) := by
  have h : processWord = fun w =>
      if beginsWithMarker w.data then [SENTENCE_SPLIT_MARKER, removeMarker w]
      else if endsWithMarkerChars w.data then [removeMarker w, SENTENCE_SPLIT_MARKER]
      else [w] :=
    funext processWord_eq
  rw [newTokens, h]

/-- Range invariant of the alignment walk, generalized over the loop
counters: if the consumed-marker count does not exceed the position and the
mapped index has not passed `docLen - 1`, every write event stays in
`[0, docLen - 1)`. -/
theorem sentWalk_writes_aux (docLen : Nat) (stream : List String) :
    ∀ (i skip : Nat) (seenB : Bool), skip ≤ i →
      (i : Int) - (skip : Int) ≤ (docLen : Int) - 1 →
      ∀ e ∈ sentWalk docLen stream i skip seenB, 0 ≤ e.1 ∧ e.1 < (docLen : Int) - 1 := by
  induction stream with
  | nil =>
    intro i skip seenB _ _ e he
    simp [sentWalk] at he
  | cons w rest ih =>
    intro i skip seenB hsk hle e he
    rw [sentWalk] at he
    split_ifs at he with h1 h2 h3 h4
    · simp at he
    · rcases List.mem_cons.mp he with rfl | hmem
      · exact ⟨by omega, by omega⟩
      · exact ih (i + 1) skip seenB (by omega) (by omega) e hmem
    · rcases List.mem_cons.mp he with rfl | hmem
      · exact ⟨by omega, by omega⟩
      · exact ih (i + 1) skip false (by omega) (by omega) e hmem
    · exact ih (i + 1) (skip + 1) true (by omega) (by omega) e he
    · rcases List.mem_cons.mp he with rfl | hmem
      · exact ⟨by omega, by omega⟩
      · exact ih (i + 1) skip seenB (by omega) (by omega) e hmem

/-- C6: for a document with at least one token, every `is_sent_start`
assignment performed by the alignment walk (which maps stream position `i`
to document index `i - markers_consumed` and stops the first time that
mapped index reaches `len(doc) - 1` — the two `sentWalk` equations) targets
an index in `[0, len(doc) - 1)`: never negative, never the last token or
beyond. -/
theorem sent_walk_writes_in_range (docLen : Nat) (stream : List String) (h : 1 ≤ docLen) :
    ∀ e ∈ sentWalk docLen stream 0 0 false, 0 ≤ e.1 ∧ e.1 < (docLen : Int) - 1 :=
  sentWalk_writes_aux docLen stream 0 0 false (Nat.le_refl 0) (by omega)

/-- Witness for `sent_walk_writes_in_range`: on a 2-token document and the
stream `["a", "b"]` the walk performs exactly the write `(0, true)`, and
that index lies in `[0, 1)`. -/
theorem sent_walk_writes_in_range_witness :
    0 ≤ (((0 : Int), true) : Int × Bool).1 ∧ (((0 : Int), true) : Int × Bool).1 < (2 : Int) - 1 :=
  sent_walk_writes_in_range 2 ["a", "b"] (by decide) ((0 : Int), true) (by decide)

/-- The fixed `"10 fields"` text occurs in every short-record error
message. -/
theorem depMsg_infix_ten (n : Nat) : strInfix "10 fields" (depMsg n) := by
  refine ⟨"Expected at least ".data,
    " in dependency parsing output, got ".data ++ (toString n).data, ?_⟩
  rw [depMsg, String.data_append]
  have h : ("Expected at least 10 fields in dependency parsing output, got ").data
      = "Expected at least ".data ++ "10 fields".data
          ++ " in dependency parsing output, got ".data := by decide
  rw [h]
  simp [List.append_assoc]

/-- The actual field count occurs in every short-record error message. -/
theorem depMsg_infix_count (n : Nat) : strInfix (toString n) (depMsg n) := by
  refine ⟨("Expected at least 10 fields in dependency parsing output, got ").data, [], ?_⟩
  rw [depMsg, String.data_append]
  simp

/-- C2: for every parser record whose head field is well formed, record
extraction fails exactly on records with fewer than 10 fields, the error
message then contains both the substring `"10 fields"` and the actual field
count, and extraction uses only the first 10 fields — its result on the
record and on the record truncated to 10 fields coincide. -/
theorem dep_record_guard (fields : List String)
    (hhead : 10 ≤ fields.length → (pyInt ((fields.take 10).getD 6 "")).isSome = true) :
    (depIsOk (depExtract fields) = true ↔ 10 ≤ fields.length)
      ∧ (∀ msg, depExtract fields = Except.error msg →
          strInfix "10 fields" msg ∧ strInfix (toString fields.length) msg)
      ∧ depExtract fields = depExtract (fields.take 10) := by
  by_cases h : fields.length < 10
  · have htake : fields.take 10 = fields := List.take_of_length_le (by omega)
    have he : depExtract fields = Except.error (depMsg fields.length) := by
      unfold depExtract
      rw [if_pos h]
    refine ⟨?_, ?_, ?_⟩
    · rw [he]
      constructor
      · intro hk
        simp [depIsOk] at hk
      · intro hk
        omega
    · intro msg hmsg
      rw [he] at hmsg
      injection hmsg with h2
      rw [← h2]
      exact ⟨depMsg_infix_ten _, depMsg_infix_count _⟩
    · rw [htake]
  · have h10 : ¬ fields.length < 10 := h
    obtain ⟨v, hv⟩ := Option.isSome_iff_exists.mp (hhead (by omega))
    have hok : depExtract fields =
        Except.ok ⟨(fields.take 10).getD 1 "", (fields.take 10).getD 3 "", v,
          (fields.take 10).getD 7 "", decide ((fields.take 10).getD 9 "" = "_")⟩ := by
      unfold depExtract
      rw [if_neg h10, hv]
    have htt : (fields.take 10).take 10 = fields.take 10 := by
      rw [List.take_take]
      norm_num
    have hlen10 : ¬ (fields.take 10).length < 10 := by
      rw [List.length_take]
      omega
    have hok2 : depExtract (fields.take 10) =
        Except.ok ⟨(fields.take 10).getD 1 "", (fields.take 10).getD 3 "", v,
          (fields.take 10).getD 7 "", decide ((fields.take 10).getD 9 "" = "_")⟩ := by
      unfold depExtract
      rw [if_neg hlen10, htt, hv]
    refine ⟨?_, ?_, ?_⟩
    · rw [hok]
      constructor
      · intro _
        omega
      · intro _
        rfl
    · intro msg hmsg
      rw [hok] at hmsg
      exact absurd hmsg (by simp)
    · rw [hok, hok2]

/-- Witness for `dep_record_guard` at the test suite's 11-field record:
extraction succeeds (the record has at least 10 fields) and uses only the
first 10 fields. -/
theorem dep_record_guard_witness :
    ((depIsOk (depExtract fields11) = true ↔ 10 ≤ fields11.length)
        ∧ depExtract fields11 = depExtract (fields11.take 10))
      ∧ (depIsOk (depExtract fields9) = true ↔ 10 ≤ fields9.length) :=
  ⟨⟨(dep_record_guard fields11 (by decide)).1, (dep_record_guard fields11 (by decide)).2.2⟩,
    (dep_record_guard fields9 (by decide)).1⟩

/-- Setting the last end never changes the number of spans. -/
theorem setLastEnd_length (l : List NSpan) (e : Nat) : (setLastEnd l e).length = l.length := by
  induction l with
  | nil => rfl
  | cons a l ih =>
    cases l with
    | nil =>
      rcases a with ⟨s, eo, lab⟩
      rfl
    | cons b l' =>
      show (a :: setLastEnd (b :: l') e).length = (a :: b :: l').length
      simp only [List.length_cons]
      rw [ih]
      simp

/-- Processing a token list with one final element: the loop runs every
earlier token as non-final and the last one as final. -/
theorem nerLoop_append_last (toks : List (String × String)) (p : String × String) :
    ∀ st, nerLoop st (toks ++ [p]) =
      nerStep true p.1 p.2 (toks.foldl (fun st q => nerStep false q.1 q.2 st) st) := by
  induction toks with
  | nil =>
    intro st
    rfl
  | cons q toks ih =>
    intro st
    cases toks with
    | nil => rfl
    | cons r toks' =>
      show nerLoop (nerStep false q.1 q.2 st) ((r :: toks') ++ [p]) = _
      rw [ih]
      rfl

/-- C4: whenever the last token of a BIO sequence is reached with a label
still open, the builder closes the most recently opened span at
`c + len(last token)` — regardless of the last token's tag, which is
universally quantified here — and opens no new span for that token (the
span count is unchanged). -/
theorem ner_last_token_close (toks : List (String × String)) (w tag : String)
    (h : (nerBody toks).label ≠ "") :
    nerSpans (toks ++ [(w, tag)]) =
        setLastEnd (nerBody toks).spans ((nerBody toks).c + w.length)
      ∧ (nerSpans (toks ++ [(w, tag)])).length = ((nerBody toks).spans).length := by
  have hl : nerLoop initNer (toks ++ [(w, tag)]) = nerStep true w tag (nerBody toks) :=
    nerLoop_append_last toks (w, tag) initNer
  have hspans : nerSpans (toks ++ [(w, tag)]) =
      setLastEnd (nerBody toks).spans ((nerBody toks).c + w.length) := by
    rw [nerSpans, hl]
    simp [nerStep, h]
  exact ⟨hspans, by rw [hspans, setLastEnd_length]⟩

/-- Witness for `ner_last_token_close` at the sequence
`[("ab", "B-X"), ("cd", "O")]`: after `("ab", "B-X")` the label `"X"` is
open, so the final `O` token closes the open span at offset 4 and adds no
span. -/
theorem ner_last_token_close_witness :
    nerSpans [("ab", "B-X"), ("cd", "O")] =
        setLastEnd (nerBody [("ab", "B-X")]).spans
          ((nerBody [("ab", "B-X")]).c + ("cd" : String).length)
      ∧ (nerSpans [("ab", "B-X"), ("cd", "O")]).length =
          ((nerBody [("ab", "B-X")]).spans).length :=
  ner_last_token_close [("ab", "B-X")] "cd" "O" (by decide)

/-- Relaxing the upper bound of a chain. -/
theorem chainFrom_mono (l : List NSpan) :
    ∀ lb t t', chainFrom lb t l → t ≤ t' → chainFrom lb t' l := by
  induction l with
  | nil =>
    intro lb t t' _ _
    trivial
  | cons a rest ih =>
    rcases a with ⟨s, eo, lab⟩
    intro lb t t' h htt
    obtain ⟨hlb, e', heq, hse, het, hrest⟩ := h
    exact ⟨hlb, e', heq, hse, Nat.le_trans het htt, ih e' t t' hrest htt⟩

/-- Appending a closed span `[s, e)` to a chain bounded by `s` yields a
chain bounded by any `t ≥ e`. -/
theorem chainFrom_append_closed (l : List NSpan) :
    ∀ lb s e t lab, chainFrom lb s l → lb ≤ s → s < e → e ≤ t →
      chainFrom lb t (l ++ [(s, some e, lab)]) := by
  induction l with
  | nil =>
    intro lb s e t lab _ hlb hse het
    exact ⟨hlb, e, rfl, hse, het, trivial⟩
  | cons a rest ih =>
    rcases a with ⟨s₀, eo₀, lab₀⟩
    intro lb s e t lab h hlb hse het
    obtain ⟨hlb₀, e₀, heq₀, hse₀, het₀, hrest⟩ := h
    exact ⟨hlb₀, e₀, heq₀, hse₀, Nat.le_trans het₀ (by omega),
      ih e₀ s e t lab hrest het₀ hse het⟩

/-- Applying `setLastEnd` to a list ending in an open span closes exactly that
span. -/
theorem setLastEnd_append_open (l : List NSpan) (s : Nat) (lab : String) (e : Nat) :
    setLastEnd (l ++ [(s, none, lab)]) e = l ++ [(s, some e, lab)] := by
  induction l with
  | nil => rfl
  | cons a l ih =>
    cases l with
    | nil => rfl
    | cons b l' =>
      show a :: setLastEnd ((b :: l') ++ [(s, none, lab)]) e = a :: ((b :: l') ++ [(s, some e, lab)])
      rw [ih]

/-- Every member of a chain is a closed span within the bounds. -/
theorem chainFrom_mem (l : List NSpan) :
    ∀ lb t, chainFrom lb t l →
      ∀ sp ∈ l, lb ≤ sp.1 ∧ ∃ e, sp.2.1 = some e ∧ sp.1 < e ∧ e ≤ t := by
  induction l with
  | nil =>
    intro lb t _ sp hsp
    simp at hsp
  | cons a rest ih =>
    rcases a with ⟨s, eo, lab⟩
    intro lb t h sp hsp
    obtain ⟨hlb, e', heq, hse, het, hrest⟩ := h
    rcases List.mem_cons.mp hsp with rfl | hmem
    · exact ⟨hlb, e', heq, hse, het⟩
    · have := ih e' t hrest sp hmem
      exact ⟨by omega, this.2⟩

/-- A chain is pairwise non-overlapping: any earlier span's end is at most
any later span's start. -/
theorem chainFrom_pairwise (l : List NSpan) :
    ∀ lb t, chainFrom lb t l →
      List.Pairwise (fun a b : NSpan => ∀ ea, a.2.1 = some ea → ea ≤ b.1) l := by
  induction l with
  | nil =>
    intro lb t _
    exact List.Pairwise.nil
  | cons a rest ih =>
    rcases a with ⟨s, eo, lab⟩
    intro lb t h
    obtain ⟨hlb, e', heq, hse, het, hrest⟩ := h
    refine List.Pairwise.cons ?_ (ih e' t hrest)
    intro b hb ea hea
    have hb' := (chainFrom_mem rest e' t hrest b hb).1
    have hae : e' = ea := by
      rw [heq] at hea
      injection hea
    omega

/-- A nonempty string has positive character length. -/
theorem length_pos_of_ne_empty (w : String) (h : w ≠ "") : 0 < w.length := by
  rcases w with ⟨data⟩
  cases data with
  | nil => exact absurd rfl h
  | cons c cs => simp [String.length]

/-- A non-final iteration of the merging loop preserves the invariant,
provided the token text is nonempty and a `B-` tag always carries a
nonempty label. -/
theorem nerInv_step (st : NerState) (w tag : String) (hw : w ≠ "")
    (htag : beginsWithB tag.data = true → stripB tag ≠ "")
    (h : nerInv st) : nerInv (nerStep false w tag st) := by
  have hn : 0 < w.length := length_pos_of_ne_empty w hw
  simp only [nerStep, Bool.false_eq_true, false_and, if_false]
  split_ifs with h3 h4 h5
  · rcases h with ⟨hlab, hchain⟩ | ⟨hlab, l, s, lab, hsp, hchain, hsc⟩
    · simp only [nerInv]
      right
      refine ⟨htag h3.1, st.spans, st.c, stripB tag, rfl, hchain, ?_⟩
      omega
    · exact absurd h3.2 hlab
  · rcases h with ⟨hlab, hchain⟩ | ⟨hlab, l, s, lab, hsp, hchain, hsc⟩
    · exact absurd hlab h4.2
    · simp only [nerInv]
      right
      refine ⟨htag h4.1, l ++ [(s, some st.c, lab)], st.c, stripB tag, ?_, ?_, ?_⟩
      · rw [hsp, setLastEnd_append_open]
      · exact chainFrom_append_closed l 0 s st.c st.c lab hchain (Nat.zero_le s) hsc
          (Nat.le_refl st.c)
      · omega
  · rcases h with ⟨hlab, hchain⟩ | ⟨hlab, l, s, lab, hsp, hchain, hsc⟩
    · exact absurd hlab h5.2
    · simp only [nerInv]
      left
      refine ⟨trivial, ?_⟩
      rw [hsp, setLastEnd_append_open]
      exact chainFrom_append_closed l 0 s st.c (st.c + w.length) lab hchain (Nat.zero_le s)
        hsc (by omega)
  · rcases h with ⟨hlab, hchain⟩ | ⟨hlab, l, s, lab, hsp, hchain, hsc⟩
    · simp only [nerInv]
      left
      exact ⟨hlab, chainFrom_mono st.spans 0 st.c (st.c + w.length) hchain (by omega)⟩
    · simp only [nerInv]
      right
      exact ⟨hlab, l, s, lab, hsp, hchain, by omega⟩

/-- Every branch of the merging loop advances the offset by the token
length. -/
theorem nerStep_c (isLast : Bool) (w tag : String) (st : NerState) :
    (nerStep isLast w tag st).c = st.c + w.length := by
  simp only [nerStep]
  split_ifs <;> rfl

/-- Unfolding `totalLen` over a cons. -/
theorem totalLen_cons (p : String × String) (toks : List (String × String)) :
    totalLen (p :: toks) = p.1.length + totalLen toks := by
  simp [totalLen]

/-- The final iteration turns the invariant into a closed chain bounded by
the final offset, whatever the last tag is. -/
theorem chainFrom_final (st : NerState) (w tag : String) (hw : w ≠ "") (h : nerInv st) :
    chainFrom 0 (st.c + w.length) (nerStep true w tag st).spans := by
  have hn : 0 < w.length := length_pos_of_ne_empty w hw
  simp only [nerStep]
  split_ifs with h1 h2 h3 h4 h5
  · rcases h with ⟨hlab, _⟩ | ⟨hlab, l, s, lab, hsp, hchain, hsc⟩
    · exact absurd hlab h1.2
    · dsimp only
      rw [hsp, setLastEnd_append_open]
      exact chainFrom_append_closed l 0 s (st.c + w.length) (st.c + w.length) lab hchain
        (Nat.zero_le s) (by omega) (Nat.le_refl _)
  · have hlab : st.label = "" := by
      by_contra hne
      exact h1 ⟨trivial, hne⟩
    rcases h with ⟨_, hchain⟩ | ⟨hlab', _⟩
    · dsimp only
      exact chainFrom_append_closed st.spans 0 st.c (st.c + w.length) (st.c + w.length)
        (stripB tag) hchain (Nat.zero_le _) (by omega) (Nat.le_refl _)
    · exact absurd hlab hlab'
  · exact (h2 ⟨trivial, h3.1⟩).elim
  · exact (h2 ⟨trivial, h4.1⟩).elim
  · have hlab : st.label = "" := by
      by_contra hne
      exact h1 ⟨trivial, hne⟩
    exact absurd hlab h5.2
  · have hlab : st.label = "" := by
      by_contra hne
      exact h1 ⟨trivial, hne⟩
    rcases h with ⟨_, hchain⟩ | ⟨hlab', _⟩
    · exact chainFrom_mono st.spans 0 st.c (st.c + w.length) hchain (by omega)
    · exact absurd hlab hlab'

/-- Running the merging loop from an invariant state over a nonempty,
well-formed token list yields a closed chain bounded by the final offset. -/
theorem nerChain_loop (toks : List (String × String)) :
    ∀ st, nerInv st → (∀ p ∈ toks, p.1 ≠ "") →
      (∀ p ∈ toks, beginsWithB p.2.data = true → stripB p.2 ≠ "") → toks ≠ [] →
      chainFrom 0 (st.c + totalLen toks) (nerLoop st toks).spans := by
  induction toks with
  | nil =>
    intro st _ _ _ hne
    exact absurd rfl hne
  | cons p toks ih =>
    intro st h hw ht _
    cases toks with
    | nil =>
      have hfin := chainFrom_final st p.1 p.2 (hw p (by simp)) h
      have htl : totalLen [p] = p.1.length := by simp [totalLen]
      rw [show nerLoop st [p] = nerStep true p.1 p.2 st from rfl, htl]
      exact hfin
    | cons q toks' =>
      have hstep := nerInv_step st p.1 p.2 (hw p (by simp)) (ht p (by simp)) h
      have hrec := ih (nerStep false p.1 p.2 st) hstep
        (fun r hr => hw r (List.mem_cons_of_mem p hr))
        (fun r hr => ht r (List.mem_cons_of_mem p hr))
        (by simp)
      rw [show nerLoop st (p :: q :: toks') = nerLoop (nerStep false p.1 p.2 st) (q :: toks')
        from rfl]
      rw [nerStep_c false p.1 p.2 st] at hrec
      rw [totalLen_cons, ← Nat.add_assoc]
      exact hrec

/-- C5 (amended): for BIO sequences whose token texts are nonempty and whose
`B-` tags carry nonempty labels, every produced span has a set end with
`0 ≤ start < end ≤ total length`, and the spans are pairwise ordered and
non-overlapping (`spans[i].end ≤ spans[j].start` for `i < j`). -/
theorem ner_spans_wellformed (toks : List (String × String))
    (hw : ∀ p ∈ toks, p.1 ≠ "")
    (ht : ∀ p ∈ toks, beginsWithB p.2.data = true → stripB p.2 ≠ "") :
    (∀ sp ∈ nerSpans toks, ∃ e, sp.2.1 = some e ∧ sp.1 < e ∧ e ≤ totalLen toks)
      ∧ List.Pairwise (fun a b : NSpan => ∀ ea, a.2.1 = some ea → ea ≤ b.1)
          (nerSpans toks) := by
  have hchain : chainFrom 0 (totalLen toks) (nerSpans toks) := by
    cases toks with
    | nil => exact trivial
    | cons p toks' =>
      have hloop := nerChain_loop (p :: toks') initNer (Or.inl ⟨rfl, trivial⟩) hw ht (by simp)
      simpa [nerSpans, initNer] using hloop
  refine ⟨?_, chainFrom_pairwise (nerSpans toks) 0 (totalLen toks) hchain⟩
  intro sp hsp
  exact (chainFrom_mem (nerSpans toks) 0 (totalLen toks) hchain sp hsp).2

/-- C5 (counterexample): the claim fails on degenerate inputs the code
accepts — an empty token text yields the span `(0, 0, "X")` with
`start < end` false, and a bare `B-` tag (empty label, which Python treats
as falsy) leaves a span's end unset (`none`). -/
theorem ner_spans_wellformed_counterexample :
    nerSpans [("", "B-X")] = [(0, some 0, "X")] ∧ ¬ (0 : Nat) < 0
      ∧ nerSpans [("a", "B-"), ("b", "O")] = [(0, none, "")] := by decide

/-- Witness for `ner_spans_wellformed` at the spec's Scenario 1 input,
whose hypotheses hold by computation. -/
theorem ner_spans_wellformed_witness :
    List.Pairwise (fun a b : NSpan => ∀ ea, a.2.1 = some ea → ea ≤ b.1)
      (nerSpans [("แมว", "B-ANIMAL"), ("กิน", "O"), ("ปลา", "B-FOOD")]) :=
  (ner_spans_wellformed [("แมว", "B-ANIMAL"), ("กิน", "O"), ("ปลา", "B-FOOD")]
    (by decide) (by decide)).2
